import Mathlib

/-!
# L'Oréal chatbot: conversation store, request builder, exchange controller

A shallow embedding of `src/script.js`.  The script keeps two session-wide
variables (`messages`, `context`), reads three properties of `window`, and
reacts to three kinds of events: the form's `submit`, the settling of a
pending `fetch`, and a click on the clear button.  Each handler becomes a
function on an explicit `State`.  The chat window's rendering (message
bubbles, placeholder) is not part of the state; the `disabled` flag of the
send button is.

JavaScript strings are `String`; the operations the script applies to them
(`trim`, the name regular expression, `slice`, `join`) look only at
characters of the Basic Multilingual Plane outside the surrogate range, so
working on code points instead of UTF-16 code units changes nothing.
-/

namespace LorealChatbot

/-! ## JavaScript values -/

/-- A JavaScript value as far as the script looks at one: what
`await resp.json()` can give, a property of `window`, or the `content` of a
message.  Numbers are kept as integers: the script only tests them for
truthiness. -/
inductive JsVal where
  | undefined
  | null
  | bool (b : Bool)
  | num (n : Int)
  | str (s : String)
  | arr (xs : List JsVal)
  | obj (props : List (String × JsVal))

/-- ToBoolean: `undefined`, `null`, `false`, `0` and `""` are falsy. -/
def JsVal.truthy : JsVal → Bool
  | .undefined => false
  | .null => false
  | .bool b => b
  | .num n => n != 0
  | .str s => s != ""
  | .arr _ => true
  | .obj _ => true

/-- The operator `a || b`. -/
def jsOr (a b : JsVal) : JsVal := if a.truthy then a else b

/-- Optional member access `v?.key` for a key that is not an array index and
is on no built-in prototype (`choices`, `message`, `content`, `text`,
`response`): only an object can have it. -/
def JsVal.optProp (v : JsVal) (key : String) : JsVal :=
  match v with
  | .obj props => (props.lookup key).getD .undefined
  | _ => .undefined

/-- Optional element access `v?.[0]`: the first element of an array, the
first character of a string, the property `"0"` of an object. -/
def JsVal.optIndex0 (v : JsVal) : JsVal :=
  match v with
  | .arr xs => xs.head?.getD .undefined
  | .str s => match s.data with
    | [] => .undefined
    | c :: _ => .str (String.mk [c])
  | .obj props => (props.lookup "0").getD .undefined
  | _ => .undefined

mutual
/-- Whether ToString completes on the value, as the setter of `textContent`
needs.  An array is joined, so each of its elements is converted in turn;
an object answers through `Object.prototype.toString` unless it has an own
property `toString`, which in a parsed body is never callable and then
leaves no method that returns a primitive: a TypeError is thrown. -/
def JsVal.convertsToString : JsVal → Bool
  | .arr xs => allConvertToString xs
  | .obj props => (props.lookup "toString").isNone
  | _ => true
/-- Whether ToString completes on every element of an array. -/
def allConvertToString : List JsVal → Bool
  | [] => true
  | x :: xs => x.convertsToString && allConvertToString xs
end

/-! ## Strings -/

/-- LineTerminator of ECMAScript: LF, CR, LS, PS. -/
def isLineTerminator (c : Char) : Bool :=
  c.toNat = 0x0A || c.toNat = 0x0D || c.toNat = 0x2028 || c.toNat = 0x2029

/-- What `String.prototype.trim` strips and what `\s` matches: WhiteSpace
(TAB, VT, FF, ZWNBSP and the space separators) and LineTerminator. -/
def isJsSpace (c : Char) : Bool :=
  c.toNat = 0x09 || c.toNat = 0x0B || c.toNat = 0x0C || c.toNat = 0x20 ||
  c.toNat = 0xA0 || c.toNat = 0x1680 || (0x2000 ≤ c.toNat && c.toNat ≤ 0x200A) ||
  c.toNat = 0x202F || c.toNat = 0x205F || c.toNat = 0x3000 || c.toNat = 0xFEFF ||
  isLineTerminator c

/-- The characters of `s.trim()`. -/
def trimChars (cs : List Char) : List Char :=
  (cs.dropWhile isJsSpace).rdropWhile isJsSpace

/-- The method `s.trim()`. -/
def jsTrim (s : String) : String := String.mk (trimChars s.data)

/-- The call `xs.slice(-n)`: the elements from index `max (length - n) 0` on. -/
def sliceLast {α : Type} (n : Nat) (xs : List α) : List α := xs.drop (xs.length - n)

/-! ## The name pattern `/^(?:my name is|i am|i'm|this is)\s+(.+)$/i`

The matcher is a backtracking one: each part of the pattern maps a position
(the characters still to read) to the list of ways it can match there, in
the order in which the engine tries them. -/

/-- One literal character of the pattern under the `i` flag.  The pattern's
literals are ASCII; without the `u` flag a character outside ASCII is never
canonicalised to an ASCII one, so only the two ASCII cases match. -/
def charCI (p c : Char) : Bool := c.toUpper = p.toUpper

/-- A literal word of the pattern at the head of `s`: the rest after it. -/
def litCI : List Char → List Char → List (List Char)
  | [], s => [s]
  | _ :: _, [] => []
  | p :: ps, c :: cs => if charCI p c then litCI ps cs else []

/-- The alternatives of the group `(?:my name is|i am|i'm|this is)`. -/
def namePrefixes : List (List Char) :=
  ["my name is".data, "i am".data, "i'm".data, "this is".data]

/-- The group `(?:...)` at the head of `s`, alternatives tried left to right. -/
def alternatives (s : List Char) : List (List Char) :=
  namePrefixes.flatMap fun p => litCI p s

/-- A greedy `x+` over a character class: every way to read one or more
leading characters of the class, the longest first, as (read, rest). -/
def plusGreedy (cls : Char → Bool) : List Char → List (List Char × List Char)
  | [] => []
  | c :: cs =>
    if cls c then (plusGreedy cls cs).map (fun mr => (c :: mr.1, mr.2)) ++ [([c], cs)]
    else []

/-- The class `.` (no `s` flag): anything but a line terminator. -/
def isDot (c : Char) : Bool := !isLineTerminator c

/-- The whole pattern, anchored at both ends (no `m` flag): the first
successful way to match gives capture group 1. -/
def nameRegexChars (text : List Char) : Option (List Char) :=
  ((alternatives text).flatMap fun r1 =>
    (plusGreedy isJsSpace r1).flatMap fun ws =>
      (plusGreedy isDot ws.2).filterMap fun cap =>
        if cap.2 = [] then some cap.1 else none).head?

/-- The capture `nameMatch[1]` of `text.match(...)`, `none` for `null`. -/
def nameRegex (text : String) : Option String :=
  (nameRegexChars text.data).map String.mk

/-! ## Data model -/

inductive Role where
  | system
  | user
  | assistant
deriving DecidableEq, Repr

/-- One entry of `messages`.  `content` is a string for every message the
script builds itself; an assistant message holds whatever value was
extracted from the response. -/
structure Message where
  role : Role
  content : JsVal

/-- The object `context`. -/
structure Context where
  userName : Option String
  pastQuestions : List String

/-- Where a request is sent: the worker, or the provider with a bearer key. -/
inductive Endpoint where
  | worker (url : JsVal)
  | openai (key : JsVal)

/-- One call of `fetch`: the endpoint and the `messages` of its body. -/
structure Request where
  endpoint : Endpoint
  messages : List (Option Message)

/-- The properties of `window` the script reads. -/
structure Window where
  CF_WORKER_URL : JsVal
  CLOUDWORKER_URL : JsVal
  OPENAI_API_KEY : JsVal

/-- The session: the two variables of the script, the `disabled` flag of
`sendBtn` (`none` when the page has no such element), the requests issued
so far (oldest first) and the number of them still awaited. -/
structure State where
  messages : List Message
  context : Context
  sendBtn : Option Bool
  requests : List Request
  pending : Nat

/-- The content of the system prompt (the initial value of `messages`). -/
def systemPrompt : String :=
  "You are a helpful product advisor specializing in L'Oréal products and " ++
  "beauty routines. Only answer questions about L'Oréal products, skincare, " ++
  "haircare, makeup, routines, and related product recommendations. If a user " ++
  "asks about topics that are unrelated to beauty or L'Oréal products (for example: " ++
  "politics, general medical diagnoses, illegal activities, personal legal or financial advice, " ++
  "or any request outside product/routine/recommendation scope), politely refuse to answer. " ++
  "When refusing, be concise and courteous, and offer to help with L'Oréal product recommendations, " ++
  "routine suggestions, ingredient information, or other beauty-related questions instead."

/-- The content pushed by the clear handler (its own copy of the text). -/
def clearedPrompt : String :=
  "You are a helpful product advisor specializing in L'Oréal products and " ++
  "beauty routines. Only answer questions about L'Oréal products, skincare, " ++
  "haircare, makeup, routines, and related product recommendations. If a user " ++
  "asks about topics that are unrelated to beauty or L'Oréal products (for example: " ++
  "politics, general medical diagnoses, illegal activities, personal legal or financial advice, " ++
  "or any request outside product/routine/recommendation scope), politely refuse to answer. " ++
  "When refusing, be concise and courteous, and offer to help with L'Oréal product recommendations, " ++
  "routine suggestions, ingredient information, or other beauty-related questions instead."

/-- The state when the script has loaded; `btn` is the send button as the
page declares it. -/
def init (btn : Option Bool) : State :=
  { messages := [{ role := .system, content := .str systemPrompt }]
    context := { userName := none, pastQuestions := [] }
    sendBtn := btn
    requests := []
    pending := 0 }

/-! ## Request builder -/

/-- The local `recent` of `buildMessagesForApi`. -/
def recent (s : State) : List String := sliceLast 5 s.context.pastQuestions

/-- The local `memoryParts` of `buildMessagesForApi` after the two pushes. -/
def memoryParts (s : State) : List String :=
  let parts : List String := []
  let parts :=
    match s.context.userName with
    | some n => if n != "" then parts ++ ["user_name: " ++ n] else parts
    | none => parts
  if (recent s).length != 0 then
    parts ++ ["recent_user_questions: " ++ " | ".intercalate ((recent s).map fun q => q)]
  else parts

/-- The message pushed onto `base` when `memoryParts` is not empty. -/
def memoryMessage (s : State) : Option Message :=
  if (memoryParts s).length != 0 then
    some { role := .system, content := .str ("Conversation memory: " ++ "; ".intercalate (memoryParts s)) }
  else none

/-- The function `buildMessagesForApi`.  An element `none` is `undefined`
(what `messages[0]` is on an empty array). -/
def buildMessagesForApi (s : State) : List (Option Message) :=
  let base := [s.messages.head?]
  let base :=
    match memoryMessage s with
    | some m => base ++ [some m]
    | none => base
  let rest := s.messages.drop 1
  base ++ rest.map some

/-! ## Exchange controller -/

/-- The statements `sendBtn.disabled = d` under `if (sendBtn)`. -/
def setDisabled (s : State) (d : Bool) : State :=
  { s with sendBtn := s.sendBtn.map fun _ => d }

/-- The name branch of the submit handler (`nameMatch` is not `null`). -/
def nameBranch (s : State) (group1 : String) : State :=
  let name := jsTrim group1
  let ack := "Nice to meet you, " ++ name ++ "! I'll remember your name for this session."
  { s with
    context := { s.context with userName := some name }
    messages := s.messages ++ [{ role := .assistant, content := .str ack }] }

/-- The submit handler from the push of the user message to the insertion
of the placeholder: the exchange becomes pending. -/
def beginPending (s : State) (text : String) : State :=
  let s : State := { s with messages := s.messages ++ [{ role := .user, content := .str text }] }
  let pq := s.context.pastQuestions ++ [text]
  let pq := if pq.length > 20 then pq.tail else pq
  let s : State := { s with context := { s.context with pastQuestions := pq } }
  setDisabled s true

/-- The asynchronous function of the submit handler up to its first
`await`: the choice of the endpoint and the call of `fetch`, or the
configuration error.  The comment in the script names `CF_WORKER_URL` alone
for the worker path; the code also takes `CLOUDWORKER_URL`, ahead of the
provider key. -/
def startExchange (s : State) (w : Window) : State :=
  let workerUrl := jsOr w.CF_WORKER_URL w.CLOUDWORKER_URL
  if workerUrl.truthy then
    { s with
      requests := s.requests ++ [{ endpoint := .worker workerUrl, messages := buildMessagesForApi s }]
      pending := s.pending + 1 }
  else if w.OPENAI_API_KEY.truthy then
    { s with
      requests := s.requests ++ [{ endpoint := .openai w.OPENAI_API_KEY, messages := buildMessagesForApi s }]
      pending := s.pending + 1 }
  else setDisabled s false

/-- The submit handler, `value` being `userInput.value`. -/
def submitHandler (s : State) (value : String) (w : Window) : State :=
  let text := jsTrim value
  if text = "" then s
  else
    match nameRegex text with
    | some group1 => nameBranch s group1
    | none => startExchange (beginPending s text) w

/-- A response as the script reads it: `text` is what `await resp.text()`
gives and `json` what `await resp.json()` gives, `none` when the promise
is rejected (the body cannot be read, or is not JSON). -/
structure Response where
  status : Nat
  statusText : String
  text : Option String
  json : Option JsVal

/-- The property `resp.ok`: the status is in the range 200 to 299. -/
def Response.ok (r : Response) : Bool := 200 ≤ r.status && r.status ≤ 299

/-- How a pending `fetch` settles: rejected, or fulfilled with a response. -/
inductive Outcome where
  | rejected (message : String)
  | responded (r : Response)

/-- The expression assigned to `assistantMsg`. -/
def extractAssistantMsg (data : JsVal) : JsVal :=
  jsOr (jsOr (jsOr (jsOr
    ((((data.optProp "choices").optIndex0).optProp "message").optProp "content")
    (((data.optProp "choices").optIndex0).optProp "text"))
    (data.optProp "response"))
    (data.optProp "text"))
    (.str "(no response)")

/-- The `catch` block. -/
def catchBlock (s : State) : State := setDisabled s false

/-- The asynchronous function after `fetch` has settled.  On the success
path the assignment `aiElem.textContent = assistantMsg` comes before the
push, so a value without a string conversion throws into the `catch`
block with nothing appended. -/
def onSettle (s : State) (o : Outcome) : State :=
  match o with
  | .rejected _ => catchBlock s
  | .responded r =>
    if !r.ok then
      match r.text with
      | none => catchBlock s
      | some _ => setDisabled s false
    else
      match r.json with
      | none => catchBlock s
      | some data =>
        let assistantMsg := extractAssistantMsg data
        if !assistantMsg.convertsToString then catchBlock s
        else
          let s : State :=
            { s with messages := s.messages ++ [{ role := .assistant, content := assistantMsg }] }
          setDisabled s false

/-- The click handler of the clear button, `ok` being the answer to
`window.confirm`. -/
def clearHandler (s : State) (ok : Bool) : State :=
  if !ok then s
  else
    { s with
      messages := [{ role := .system, content := .str clearedPrompt }]
      context := { userName := none, pastQuestions := [] } }

/-- What can happen to the page. -/
inductive Event where
  | submit (value : String) (w : Window)
  | settle (o : Outcome)
  | clear (ok : Bool)

/-- One event.  A `fetch` can only settle while one is awaited. -/
def step (s : State) (e : Event) : State :=
  match e with
  | .submit value w => submitHandler s value w
  | .settle o => if s.pending = 0 then s else onSettle { s with pending := s.pending - 1 } o
  | .clear ok => clearHandler s ok

/-- A sequence of events, oldest first. -/
def run (s : State) (es : List Event) : State := es.foldl step s

/-! ## Specification-side notions and sample values -/

/-- A session after one exchange: the name Ava, one question, its answer. -/
def sampleState : State :=
  { messages :=
      [⟨.system, .str systemPrompt⟩, ⟨.user, .str "Which serum?"⟩, ⟨.assistant, .str "Revitalift."⟩]
    context := { userName := some "Ava", pastQuestions := ["Which serum?"] }
    sendBtn := some false
    requests := []
    pending := 0 }

/-- A session that knows the name Ava and seven past questions. -/
def avaState : State :=
  { messages := [⟨.system, .str systemPrompt⟩]
    context :=
      { userName := some "Ava"
        pastQuestions := ["Q19", "Q20", "Q21", "Q22", "Q23", "Q24", "Q25"] }
    sendBtn := some false
    requests := []
    pending := 0 }

/-- The four fields read from a response body, in priority order. -/
def responseFields (data : JsVal) : List JsVal :=
  [(((data.optProp "choices").optIndex0).optProp "message").optProp "content",
   ((data.optProp "choices").optIndex0).optProp "text",
   data.optProp "response",
   data.optProp "text"]

/-- Whether a value is `undefined`, which is what reading an absent field gives. -/
def JsVal.isUndefined : JsVal → Bool
  | .undefined => true
  | _ => false

/-- The extraction as the specification words it: the value of the first
field that is present, the placeholder text when none is. -/
def firstPresentSpec (data : JsVal) : JsVal :=
  ((responseFields data).find? fun v => !v.isUndefined).getD (.str "(no response)")

/-- A body whose `choices[0].message.content` is the empty text and whose
`text` is "hi". -/
def emptyContentBody : JsVal :=
  .obj [("choices", .arr [.obj [("message", .obj [("content", .str "")])]]),
        ("text", .str "hi")]

/-- A response with status 500 and body "server error". -/
def serverError : Response :=
  { status := 500, statusText := "Internal Server Error", text := some "server error", json := none }

/-- The `window` that `secret.js` sets up: the worker URL only. -/
def pageWindow : Window :=
  { CF_WORKER_URL := .str "https://project-8-loreal.ealli12.workers.dev/"
    CLOUDWORKER_URL := .undefined
    OPENAI_API_KEY := .undefined }

/-- What holds of the store in every reachable state. -/
def StoreInv (s : State) : Prop :=
  (∃ rest, s.messages = ⟨.system, .str systemPrompt⟩ :: rest ∧ ∀ m ∈ rest, m.role ≠ .system) ∧
  s.context.pastQuestions.length ≤ 20 ∧
  s.context.userName ≠ some ""

/-- The trimmed texts of the submissions among the events, oldest first. -/
def submittedTexts (es : List Event) : List String :=
  es.filterMap fun e =>
    match e with
    | .submit value _ => some (jsTrim value)
    | _ => none

/-- The event is the submission of a question (not empty, not a name
declaration) or the settling of a request. -/
def isQuestionOrSettle : Event → Bool
  | .submit value _ => jsTrim value != "" && (nameRegex (jsTrim value)).isNone
  | .settle _ => true
  | .clear _ => false

/-- The two tests of the endpoint selection: a worker URL or a provider key
is set, so a request is issued. -/
def hasEndpoint (w : Window) : Bool :=
  (jsOr w.CF_WORKER_URL w.CLOUDWORKER_URL).truthy || w.OPENAI_API_KEY.truthy

/-- A 2xx response whose body is the JSON object with `response` = "Hi". -/
def okResponse : Response :=
  { status := 200
    statusText := "OK"
    text := some "\x7b\x22response\x22:\x22Hi\x22\x7d"
    json := some (.obj [("response", .str "Hi")]) }

/-- A 2xx response whose body cannot be read as JSON. -/
def brokenBody : Response :=
  { status := 200, statusText := "OK", text := some "<html>", json := none }

/-- A 2xx response whose JSON body has under `text` an object with own
`toString` and `valueOf` properties, both numbers. -/
def unprintableBody : Response :=
  { status := 200
    statusText := "OK"
    text := some "\x7b\x22text\x22:\x7b\x22toString\x22:1,\x22valueOf\x22:1\x7d\x7d"
    json := some (.obj [("text", .obj [("toString", .num 1), ("valueOf", .num 1)])]) }

/-- A question, then a confirmed clear while the request is awaited, then
the status 500 answer. -/
def clearedThenFailedRun : List Event :=
  [.submit "hello" pageWindow, .clear true, .settle (.responded serverError)]

/-- The texts of 25 questions. -/
def questionTexts : List String :=
  ["Q1", "Q2", "Q3", "Q4", "Q5", "Q6", "Q7", "Q8", "Q9", "Q10", "Q11", "Q12", "Q13",
   "Q14", "Q15", "Q16", "Q17", "Q18", "Q19", "Q20", "Q21", "Q22", "Q23", "Q24", "Q25"]

/-- The 25 questions submitted one after the other, each answered before
the next. -/
def questionRun : List Event :=
  questionTexts.flatMap fun q => [.submit q pageWindow, .settle (.responded okResponse)]

/-- A question, then a confirmed clear, then the answer to the question. -/
def lateAnswerRun : List Event :=
  [.submit "hello" pageWindow, .clear true, .settle (.responded okResponse)]

/-! ## Lemmas on the request builder -/

theorem sliceLast_eq_nil {α : Type} (n : Nat) (xs : List α) (hn : 0 < n) :
    sliceLast n xs = [] ↔ xs = [] := by
  unfold sliceLast
  rw [List.drop_eq_nil_iff]
  constructor
  · intro h
    have : xs.length = 0 := by omega
    exact List.length_eq_zero.mp this
  · intro h
    simp [h]

theorem sliceLast_length {α : Type} (n : Nat) (xs : List α) :
    (sliceLast n xs).length = min n xs.length := by
  unfold sliceLast
  rw [List.length_drop]
  omega

theorem sliceLast_split {α : Type} (n : Nat) (xs : List α) :
    xs = xs.take (xs.length - n) ++ sliceLast n xs := by
  unfold sliceLast
  exact (List.take_append_drop _ _).symm

/-- The parts of the memory summary, clause by clause. -/
theorem memoryParts_eq (s : State) (hn : s.context.userName ≠ some "") :
    memoryParts s =
      (match s.context.userName with
        | some n => ["user_name: " ++ n]
        | none => []) ++
      (if s.context.pastQuestions = [] then []
        else ["recent_user_questions: " ++ " | ".intercalate (recent s)]) := by
  have hr : recent s = [] ↔ s.context.pastQuestions = [] := sliceLast_eq_nil 5 _ (by decide)
  unfold memoryParts
  cases hu : s.context.userName with
  | none =>
    by_cases hp : s.context.pastQuestions = []
    · simp [hp, hr.mpr hp]
    · have : recent s ≠ [] := fun h => hp (hr.mp h)
      simp [hp, this]
  | some n =>
    have hne : n ≠ "" := fun h => hn (by rw [hu, h])
    by_cases hp : s.context.pastQuestions = []
    · simp [hp, hr.mpr hp, hne]
    · have : recent s ≠ [] := fun h => hp (hr.mp h)
      simp [hp, this, hne]

theorem memoryParts_ne_nil (s : State) (hn : s.context.userName ≠ some "") :
    memoryParts s ≠ [] ↔ (s.context.userName.isSome ∨ s.context.pastQuestions ≠ []) := by
  rw [memoryParts_eq s hn]
  cases hu : s.context.userName with
  | none =>
    by_cases hp : s.context.pastQuestions = [] <;> simp [hp]
  | some n => simp

theorem memoryMessage_of_parts (s : State) (h : memoryParts s ≠ []) :
    memoryMessage s =
      some ⟨.system, .str ("Conversation memory: " ++ "; ".intercalate (memoryParts s))⟩ := by
  unfold memoryMessage
  have : (memoryParts s).length ≠ 0 := fun h0 => h (List.length_eq_zero.mp h0)
  simp [this]

theorem memoryMessage_of_no_parts (s : State) (h : memoryParts s = []) :
    memoryMessage s = none := by
  unfold memoryMessage
  simp [h]

/-- Whatever the state, a synthesized memory message has role `system` and a
text that starts with the fixed label. -/
theorem memoryMessage_form (s : State) (m : Message) (h : memoryMessage s = some m) :
    ∃ c : String, m = ⟨.system, .str ("Conversation memory: " ++ c)⟩ := by
  unfold memoryMessage at h
  split at h
  · exact ⟨_, (Option.some.inj h).symm⟩
  · exact absurd h (by simp)

/-! ## Request builder: the payload -/

/-- C1: on a non-empty history, with `userName` unset or a non-empty text,
`buildMessagesForApi` returns `history[0]`, then the synthesized system-role
memory message exactly when `userName` is set or `pastQuestions` is
non-empty, then the history from index 1 on, unchanged; its length is the
history's, plus one when the memory message is there. -/
theorem buildMessagesForApi_shape (s : State) (m : Message) (rest : List Message)
    (hm : s.messages = m :: rest) (hn : s.context.userName ≠ some "") :
    ((s.context.userName.isSome ∨ s.context.pastQuestions ≠ []) →
      ∃ c : String,
        buildMessagesForApi s = some m :: some ⟨.system, .str c⟩ :: rest.map some ∧
        (buildMessagesForApi s).length = s.messages.length + 1) ∧
    (¬ (s.context.userName.isSome ∨ s.context.pastQuestions ≠ []) →
      buildMessagesForApi s = some m :: rest.map some ∧
      (buildMessagesForApi s).length = s.messages.length) := by
  constructor
  · intro h
    have hp : memoryParts s ≠ [] := (memoryParts_ne_nil s hn).mpr h
    refine ⟨"Conversation memory: " ++ "; ".intercalate (memoryParts s), ?_, ?_⟩
    · simp [buildMessagesForApi, memoryMessage_of_parts s hp, hm]
    · simp [buildMessagesForApi, memoryMessage_of_parts s hp, hm]
  · intro h
    have hp : memoryParts s = [] := by
      by_contra hc
      exact h ((memoryParts_ne_nil s hn).mp hc)
    constructor
    · simp [buildMessagesForApi, memoryMessage_of_no_parts s hp, hm]
    · simp [buildMessagesForApi, memoryMessage_of_no_parts s hp, hm]

theorem buildMessagesForApi_shape_witness :
    sampleState.context.userName ≠ some "" ∧
    (buildMessagesForApi sampleState).head? = some (some ⟨.system, .str systemPrompt⟩) ∧
    (buildMessagesForApi sampleState).drop 2 =
      [some ⟨.user, .str "Which serum?"⟩, some ⟨.assistant, .str "Revitalift."⟩] ∧
    (buildMessagesForApi sampleState).length = 3 + 1 := by
  obtain ⟨c, h, hl⟩ :=
    (buildMessagesForApi_shape sampleState ⟨.system, .str systemPrompt⟩
      [⟨.user, .str "Which serum?"⟩, ⟨.assistant, .str "Revitalift."⟩] rfl (by decide)).1
      (Or.inl rfl)
  refine ⟨by decide, ?_, ?_, hl⟩
  · rw [h]; rfl
  · rw [h]; rfl

/-- C2: when the memory message is synthesized (with `userName` unset or a
non-empty text), it is the element at index 1 of the payload, has role
system, and its content is "Conversation memory: " followed by the present
clauses joined by "; ": "user_name: <userName>" first, present exactly when
`userName` is set, then "recent_user_questions: " with the last
min(5, n) entries of `pastQuestions`, oldest first, joined by " | ",
present exactly when `pastQuestions` is non-empty. -/
theorem memoryMessage_content (s : State) (hn : s.context.userName ≠ some "")
    (hsyn : s.context.userName.isSome ∨ s.context.pastQuestions ≠ []) :
    ∃ older shown : List String,
      s.context.pastQuestions = older ++ shown ∧
      shown.length = min 5 s.context.pastQuestions.length ∧
      (buildMessagesForApi s)[1]? = some (some ⟨.system, .str ("Conversation memory: " ++
        "; ".intercalate (
          (match s.context.userName with
            | some n => ["user_name: " ++ n]
            | none => []) ++
          (if s.context.pastQuestions = [] then []
            else ["recent_user_questions: " ++ " | ".intercalate shown])))⟩) := by
  have hp : memoryParts s ≠ [] := (memoryParts_ne_nil s hn).mpr hsyn
  refine ⟨s.context.pastQuestions.take (s.context.pastQuestions.length - 5), recent s,
    sliceLast_split 5 _, sliceLast_length 5 _, ?_⟩
  rw [← memoryParts_eq s hn]
  simp [buildMessagesForApi, memoryMessage_of_parts s hp]

theorem memoryMessage_content_witness :
    (buildMessagesForApi avaState)[1]? = some (some ⟨.system, .str
      "Conversation memory: user_name: Ava; recent_user_questions: Q21 | Q22 | Q23 | Q24 | Q25"⟩) := by
  obtain ⟨older, shown, hsplit, hlen, hmsg⟩ :=
    memoryMessage_content avaState (by decide) (Or.inl rfl)
  have hshown : shown = ["Q21", "Q22", "Q23", "Q24", "Q25"] := by
    have h7 : older.length = 2 := by
      have := congrArg List.length hsplit
      simp [avaState] at this hlen
      omega
    have h3 : List.drop 2 (older ++ shown) = shown := by
      rw [List.drop_append_of_le_length (Nat.le_of_eq h7.symm),
        List.drop_of_length_le (Nat.le_of_eq h7)]
      rfl
    rw [← h3, ← hsplit]
    rfl
  rw [hmsg, hshown]
  rfl

/-! ## Response handling -/

/-- C7 as stated fails: on a body whose first field is present but empty the
script skips it and takes a later field. -/
theorem extract_not_first_present :
    extractAssistantMsg emptyContentBody = .str "hi" ∧
    firstPresentSpec emptyContentBody = .str "" ∧
    extractAssistantMsg emptyContentBody ≠ firstPresentSpec emptyContentBody := by
  have h1 : extractAssistantMsg emptyContentBody = .str "hi" := by
    simp [extractAssistantMsg, emptyContentBody, JsVal.optProp, JsVal.optIndex0, jsOr,
      JsVal.truthy, List.lookup]
  have h2 : firstPresentSpec emptyContentBody = .str "" := by
    simp [firstPresentSpec, responseFields, emptyContentBody, JsVal.optProp, JsVal.optIndex0,
      JsVal.isUndefined, List.lookup]
  refine ⟨h1, h2, ?_⟩
  rw [h1, h2]
  intro h
  exact absurd (JsVal.str.inj h) (by decide)

/-- C7, amended: the extracted value is the first of the four fields, in
priority order, whose value is truthy (present and not null, false, 0 or
the empty text), and the text "(no response)" when none of the four is. -/
theorem extract_first_truthy (data : JsVal) :
    extractAssistantMsg data =
      ((responseFields data).find? JsVal.truthy).getD (.str "(no response)") := by
  unfold extractAssistantMsg responseFields jsOr
  simp only [List.find?]
  split_ifs <;> simp_all

/-- C8: a confirmed clear leaves exactly one message, the system prompt under
role system, and the memory `{userName: null, pastQuestions: []}`, which is
the store of the initial state; a clear that is not confirmed changes
nothing. -/
theorem clearHandler_resets (s : State) (btn : Option Bool) :
    (clearHandler s true).messages = [⟨.system, .str systemPrompt⟩] ∧
    (clearHandler s true).messages.length = 1 ∧
    (clearHandler s true).context = ⟨none, []⟩ ∧
    (clearHandler s true).messages = (init btn).messages ∧
    (clearHandler s true).context = (init btn).context ∧
    step s (.clear true) = clearHandler s true ∧
    clearHandler s false = s ∧
    step s (.clear false) = s := by
  refine ⟨rfl, rfl, rfl, rfl, rfl, rfl, rfl, rfl⟩

theorem setDisabled_messages (s : State) (d : Bool) : (setDisabled s d).messages = s.messages := rfl

theorem setDisabled_context (s : State) (d : Bool) : (setDisabled s d).context = s.context := rfl

/-- The success path of the asynchronous function: a 2xx response, a body
read as JSON, an extracted value that the bubble can show. -/
theorem onSettle_success (s : State) (r : Response) (data : JsVal) (hok : r.ok = true)
    (hd : r.json = some data) (hc : (extractAssistantMsg data).convertsToString = true) :
    onSettle s (.responded r) =
      setDisabled
        { s with messages := s.messages ++ [⟨.assistant, extractAssistantMsg data⟩] } false := by
  simp [onSettle, hok, hd, hc]

/-- Every other path of the asynchronous function only re-enables the send
button. -/
theorem onSettle_failure (s : State) (o : Outcome)
    (hf : (∃ msg, o = .rejected msg) ∨
      ∃ r, o = .responded r ∧ (r.ok = false ∨ r.json = none ∨
        ∃ data, r.json = some data ∧ (extractAssistantMsg data).convertsToString = false)) :
    onSettle s o = setDisabled s false := by
  rcases hf with ⟨msg, rfl⟩ | ⟨r, rfl, hr⟩
  · rfl
  · cases hok : r.ok
    · cases ht : r.text <;> simp [onSettle, catchBlock, ht, hok]
    · rcases hr with hr | hr | ⟨data, hd, hc⟩
      · rw [hok] at hr
        exact absurd hr (by decide)
      · simp [onSettle, catchBlock, hr, hok]
      · simp [onSettle, catchBlock, hd, hc, hok]

/-- The two shapes of the state after a request has settled. -/
theorem onSettle_cases (s : State) (o : Outcome) :
    onSettle s o = setDisabled s false ∨
      ∃ v, onSettle s o =
        setDisabled { s with messages := s.messages ++ [⟨.assistant, v⟩] } false := by
  cases o with
  | rejected msg => exact Or.inl rfl
  | responded r =>
    cases hok : r.ok
    · exact Or.inl (onSettle_failure s _ (Or.inr ⟨r, rfl, Or.inl hok⟩))
    · cases hd : r.json with
      | none => exact Or.inl (onSettle_failure s _ (Or.inr ⟨r, rfl, Or.inr (Or.inl hd)⟩))
      | some data =>
        cases hc : (extractAssistantMsg data).convertsToString
        · exact Or.inl (onSettle_failure s _ (Or.inr ⟨r, rfl, Or.inr (Or.inr ⟨data, hd, hc⟩)⟩))
        · exact Or.inr ⟨_, onSettle_success s r data hok hd hc⟩

/-! ## The name pattern -/

theorem litCI_eq (q s : List Char) :
    litCI q s =
      if (q.map Char.toUpper).isPrefixOf (s.map Char.toUpper) then [s.drop q.length] else [] := by
  induction q generalizing s with
  | nil => simp [litCI]
  | cons p ps ih =>
    cases s with
    | nil => simp [litCI, List.isPrefixOf]
    | cons c cs =>
      by_cases h : c.toUpper = p.toUpper
      · simp [litCI, charCI, h, ih, List.isPrefixOf]
      · have h2 : ¬ p.toUpper = c.toUpper := fun e => h e.symm
        simp [litCI, charCI, h, h2, List.isPrefixOf]

theorem namePrefixes_upper :
    namePrefixes.map (fun p => p.map Char.toUpper) =
      ["MY NAME IS".data, "I AM".data, "I'M".data, "THIS IS".data] := by
  decide

theorem isPrefixOf_append_self (a b : List Char) : a.isPrefixOf (a ++ b) = true := by
  rw [List.isPrefixOf_iff_prefix]
  exact List.prefix_append a b

/-- A text that starts with one of the four words, whatever the case of its
letters, leaves the group exactly one way to match. -/
theorem alternatives_of_word (P rest : List Char)
    (hP : P.map Char.toUpper ∈ namePrefixes.map (fun p => p.map Char.toUpper)) :
    alternatives (P ++ rest) = [rest] := by
  have hlen : ∀ q : List Char, P.map Char.toUpper = q.map Char.toUpper →
      (P ++ rest).drop q.length = rest := by
    intro q hq
    have : q.length = P.length := by
      have := congrArg List.length hq
      simpa using this.symm
    rw [this, List.drop_left]
  rw [namePrefixes_upper] at hP
  simp only [List.mem_cons, List.mem_singleton, List.not_mem_nil, or_false] at hP
  unfold alternatives namePrefixes
  simp only [List.flatMap_cons, List.flatMap_nil, List.append_nil, litCI_eq, List.map_append]
  rcases hP with h | h | h | h
  · have e := hlen "my name is".data (by rw [h]; decide)
    rw [e, h]
    simp [List.isPrefixOf]
  · have e := hlen "i am".data (by rw [h]; decide)
    rw [e, h]
    simp [List.isPrefixOf]
  · have e := hlen "i'm".data (by rw [h]; decide)
    rw [e, h]
    simp [List.isPrefixOf]
  · have e := hlen "this is".data (by rw [h]; decide)
    rw [e, h]
    simp [List.isPrefixOf]

theorem plusGreedy_nil_of_head (cls : Char → Bool) (X : List Char)
    (hX : ∀ c, X.head? = some c → cls c = false) : plusGreedy cls X = [] := by
  cases X with
  | nil => rfl
  | cons c cs => simp [plusGreedy, hX c rfl]

theorem plusGreedy_cons (cls : Char → Bool) (c : Char) (cs : List Char) (hc : cls c = true) :
    plusGreedy cls (c :: cs) =
      (plusGreedy cls cs).map (fun mr => (c :: mr.1, mr.2)) ++ [([c], cs)] := by
  simp [plusGreedy, hc]

/-- The first way a greedy `x+` matches is the longest run. -/
theorem plusGreedy_head (cls : Char → Bool) (W X : List Char) (hW : W ≠ [])
    (hall : ∀ c ∈ W, cls c = true) (hX : ∀ c, X.head? = some c → cls c = false) :
    (plusGreedy cls (W ++ X)).head? = some (W, X) := by
  induction W with
  | nil => exact absurd rfl hW
  | cons c cs ih =>
    have hc : cls c = true := hall c (List.mem_cons_self _ _)
    rw [List.cons_append, plusGreedy_cons cls c _ hc]
    cases cs with
    | nil =>
      simp [plusGreedy_nil_of_head cls X hX]
    | cons d ds =>
      have ih2 := ih (by simp) (fun x hx => hall x (List.mem_cons_of_mem _ hx))
      have hne : (plusGreedy cls (d :: ds ++ X)).map (fun mr => (c :: mr.1, mr.2)) ≠ [] := by
        intro h0
        rw [List.map_eq_nil_iff] at h0
        rw [h0] at ih2
        exact absurd ih2 (by simp)
      rw [List.head?_append_of_ne_nil _ hne, List.head?_map, ih2]
      rfl

theorem head?_flatMap_of_head {α β : Type} (l : List α) (f : α → List β) (a : α) (b : β)
    (hl : l.head? = some a) (hf : (f a).head? = some b) : (l.flatMap f).head? = some b := by
  cases l with
  | nil => exact absurd hl (by simp)
  | cons x xs =>
    have : x = a := by simpa using hl
    subst this
    have hne : f x ≠ [] := by
      intro h0
      rw [h0] at hf
      exact absurd hf (by simp)
    rw [List.flatMap_cons, List.head?_append_of_ne_nil _ hne, hf]

/-- The pattern on word, whitespace, remainder: group 1 is the remainder. -/
theorem nameRegexChars_of_parts (P W X : List Char)
    (hP : P.map Char.toUpper ∈ namePrefixes.map (fun p => p.map Char.toUpper))
    (hW : W ≠ []) (hWs : ∀ c ∈ W, isJsSpace c = true)
    (hX : X ≠ []) (hXh : ∀ c, X.head? = some c → isJsSpace c = false)
    (hXl : ∀ c ∈ X, isLineTerminator c = false) :
    nameRegexChars (P ++ (W ++ X)) = some X := by
  unfold nameRegexChars
  rw [alternatives_of_word P (W ++ X) hP]
  refine head?_flatMap_of_head [W ++ X] _ (W ++ X) X rfl ?_
  refine head?_flatMap_of_head _ _ (W, X) X (plusGreedy_head isJsSpace W X hW hWs hXh) ?_
  have hd : (plusGreedy isDot (X ++ [])).head? = some (X, []) :=
    plusGreedy_head isDot X [] hX (fun c hc => by simp [isDot, hXl c hc]) (by simp)
  rw [List.append_nil] at hd
  show (List.filterMap _ (plusGreedy isDot X)).head? = some X
  cases hpg : plusGreedy isDot X with
  | nil => rw [hpg] at hd; exact absurd hd (by simp)
  | cons y ys =>
    rw [hpg] at hd
    have : y = (X, []) := by simpa using hd
    subst this
    simp [List.filterMap_cons]

/-! ## The submit handler -/

theorem trimChars_length_le (l : List Char) : (trimChars l).length ≤ l.length := by
  unfold trimChars
  exact le_trans (List.rdropWhile_prefix _ _).length_le (List.dropWhile_suffix _).length_le

/-- A text that `trim` leaves alone does not start with whitespace. -/
theorem head_of_trimChars_eq (l : List Char) (h : trimChars l = l) :
    ∀ c, l.head? = some c → isJsSpace c = false := by
  intro c hc
  cases l with
  | nil => exact absurd hc (by simp)
  | cons d ds =>
    have hd : d = c := by simpa using hc
    subst hd
    by_contra hsp
    have hsp2 : isJsSpace d = true := by simpa using hsp
    have h1 : (trimChars (d :: ds)).length ≤ ds.length := by
      unfold trimChars
      rw [List.dropWhile_cons_of_pos hsp2]
      exact le_trans (List.rdropWhile_prefix _ _).length_le (List.dropWhile_suffix _).length_le
    rw [h] at h1
    simp at h1

theorem string_ne_empty_iff (s : String) : s ≠ "" ↔ s.data ≠ [] := by
  constructor
  · intro h hd
    apply h
    cases s
    simp_all
  · intro h hs
    apply h
    rw [hs]

/-- The submit handler on a question: a text that is not empty and that the
name pattern does not match. -/
theorem submitHandler_question (s : State) (value : String) (w : Window)
    (ht : jsTrim value ≠ "") (hn : nameRegex (jsTrim value) = none) :
    submitHandler s value w = startExchange (beginPending s (jsTrim value)) w := by
  unfold submitHandler
  simp [ht, hn]

/-- The submit handler on a name declaration. -/
theorem submitHandler_name (s : State) (value group1 : String)  (w : Window)
    (ht : jsTrim value ≠ "") (hn : nameRegex (jsTrim value) = some group1) :
    submitHandler s value w = nameBranch s group1 := by
  unfold submitHandler
  simp [ht, hn]

theorem trimChars_getLast? (v : List Char) (c : Char) (h : (trimChars v).getLast? = some c) :
    isJsSpace c = false := by
  have hne : (v.dropWhile isJsSpace).rdropWhile isJsSpace ≠ [] := by
    intro h0
    unfold trimChars at h
    rw [h0] at h
    exact absurd h (by simp)
  have hnot := List.rdropWhile_last_not isJsSpace (v.dropWhile isJsSpace) hne
  have hl := List.getLast?_eq_getLast _ hne
  unfold trimChars at h
  rw [hl] at h
  rw [Option.some.inj h] at hnot
  simpa using hnot

/-- A text whose last character is not whitespace is trimmed by dropping
its leading whitespace. -/
theorem trimChars_of_getLast? (R : List Char) (c : Char) (h : R.getLast? = some c)
    (hc : isJsSpace c = false) :
    trimChars R = R.dropWhile isJsSpace ∧ R.dropWhile isJsSpace ≠ [] ∧
      (R.dropWhile isJsSpace).getLast? = some c := by
  have hmem : c ∈ R := List.mem_of_getLast?_eq_some h
  have hne : R.dropWhile isJsSpace ≠ [] := by
    intro h0
    rw [List.dropWhile_eq_nil_iff] at h0
    have := h0 c hmem
    rw [hc] at this
    exact absurd this (by decide)
  have hlast : (R.dropWhile isJsSpace).getLast? = some c := by
    have := List.getLast?_append_of_ne_nil (R.takeWhile isJsSpace) hne
    rw [List.takeWhile_append_dropWhile] at this
    rw [← this, h]
  refine ⟨?_, hne, hlast⟩
  unfold trimChars
  rw [List.rdropWhile_eq_self_iff]
  intro hl
  have h2 := List.getLast?_eq_getLast _ hl
  rw [hlast] at h2
  rw [← Option.some.inj h2, hc]
  decide

/-- The pattern on a trimmed text made of word, whitespace and a rest whose
trimmed form has no line terminator: group 1 is the trimmed rest, which is
not empty. -/
theorem nameRegexChars_of_trimmed (v P W R : List Char) (ht : trimChars v = P ++ (W ++ R))
    (hP : P.map Char.toUpper ∈ namePrefixes.map (fun p => p.map Char.toUpper))
    (hW : W ≠ []) (hWs : ∀ c ∈ W, isJsSpace c = true)
    (hR : ∀ c ∈ trimChars R, isLineTerminator c = false) :
    trimChars R ≠ [] ∧ trimChars (trimChars R) = trimChars R ∧
      nameRegexChars (trimChars v) = some (trimChars R) := by
  have hRne : R ≠ [] := by
    intro h0
    subst h0
    rw [List.append_nil] at ht
    obtain ⟨c, hc⟩ : ∃ c, W.getLast? = some c := by
      cases hg : W.getLast? with
      | none => exact absurd (List.getLast?_eq_none_iff.mp hg) hW
      | some c => exact ⟨c, rfl⟩
    have h1 : (trimChars v).getLast? = some c := by
      rw [ht, List.getLast?_append_of_ne_nil _ hW, hc]
    have h2 := trimChars_getLast? v c h1
    rw [hWs c (List.mem_of_getLast?_eq_some hc)] at h2
    exact absurd h2 (by decide)
  obtain ⟨c, hc⟩ : ∃ c, R.getLast? = some c := by
    cases hg : R.getLast? with
    | none => exact absurd (List.getLast?_eq_none_iff.mp hg) hRne
    | some c => exact ⟨c, rfl⟩
  have hcs : isJsSpace c = false := by
    apply trimChars_getLast? v c
    rw [ht, List.getLast?_append_of_ne_nil _ (by simp [hRne]),
      List.getLast?_append_of_ne_nil _ hRne, hc]
  obtain ⟨hT, hXne, hXlast⟩ := trimChars_of_getLast? R c hc hcs
  have hidem : trimChars (trimChars R) = trimChars R := by
    rw [hT]
    have := (trimChars_of_getLast? (R.dropWhile isJsSpace) c hXlast hcs).1
    rw [this, List.dropWhile_idempotent]
  refine ⟨by rw [hT]; exact hXne, hidem, ?_⟩
  have hsplit : P ++ (W ++ R) =
      P ++ ((W ++ R.takeWhile isJsSpace) ++ R.dropWhile isJsSpace) := by
    rw [List.append_assoc W, List.takeWhile_append_dropWhile]
  rw [ht, hT, hsplit]
  apply nameRegexChars_of_parts P _ _ hP (by simp [hW])
  · intro x hx
    rcases List.mem_append.mp hx with hx | hx
    · exact hWs x hx
    · exact (List.mem_takeWhile_imp hx)
  · exact hXne
  · intro x hx
    have := List.head?_dropWhile_not isJsSpace R
    rw [hx] at this
    exact this
  · intro x hx
    exact hR x (by rw [hT]; exact hx)

/-- The pattern on a trimmed text made of word, whitespace and rest. -/
theorem nameRegex_of_parts (value P W R : String) (htext : jsTrim value = P ++ W ++ R)
    (hP : P.data.map Char.toUpper ∈ namePrefixes.map (fun p => p.map Char.toUpper))
    (hW : W ≠ "" ∧ ∀ c ∈ W.data, isJsSpace c = true)
    (hR : ∀ c ∈ (jsTrim R).data, isLineTerminator c = false) :
    jsTrim R ≠ "" ∧ jsTrim (jsTrim R) = jsTrim R ∧
      nameRegex (jsTrim value) = some (jsTrim R) := by
  have ht : trimChars value.data = P.data ++ (W.data ++ R.data) := by
    have := congrArg String.data htext
    simpa [jsTrim, String.data_append, List.append_assoc] using this
  obtain ⟨h1, h2, h3⟩ := nameRegexChars_of_trimmed value.data P.data W.data R.data ht hP
    ((string_ne_empty_iff W).mp hW.1) hW.2 hR
  refine ⟨(string_ne_empty_iff _).mpr h1, ?_, ?_⟩
  · show String.mk (trimChars (trimChars R.data)) = String.mk (trimChars R.data)
    rw [h2]
  · show (nameRegexChars (trimChars value.data)).map String.mk = some (jsTrim R)
    rw [h3]
    rfl

/-- C3 as stated fails: "i am a\nb" is "i am", whitespace and a non-empty
remainder without leading or trailing whitespace, yet the pattern does not
match it (`.` stops at a line terminator and `$` wants the end of the
text); the handler treats it as a question: `userName` stays unset, a user
message and a past question are stored, a request is issued. -/
theorem name_with_line_break_is_question :
    jsTrim "i am a\nb" = "i am" ++ " " ++ "a\nb" ∧
    jsTrim "a\nb" = "a\nb" ∧
    nameRegex (jsTrim "i am a\nb") = none ∧
    (submitHandler (init (some false)) "i am a\nb" pageWindow).context.userName = none ∧
    (submitHandler (init (some false)) "i am a\nb" pageWindow).messages =
      (init (some false)).messages ++ [⟨.user, .str "i am a\nb"⟩] ∧
    (submitHandler (init (some false)) "i am a\nb" pageWindow).context.pastQuestions =
      ["i am a\nb"] ∧
    (submitHandler (init (some false)) "i am a\nb" pageWindow).requests.length = 1 := by
  have ht : jsTrim "i am a\nb" ≠ "" := by decide
  have hn : nameRegex (jsTrim "i am a\nb") = none := by decide
  have hv : jsTrim "i am a\nb" = "i am a\nb" := by decide
  rw [submitHandler_question _ _ _ ht hn, hv]
  exact ⟨by decide, by decide, by decide, rfl, rfl, rfl, rfl⟩

/-- C3, amended: when the trimmed text is one of the words "my name is",
"i am", "i'm", "this is" in any letter case, then non-empty whitespace,
then a rest whose trimmed form X has no line terminator, the submit handler
sets `userName` to X, which is non-empty and has no leading or trailing
whitespace; it appends to the history exactly the assistant message "Nice
to meet you, X! I'll remember your name for this session." and no user
message, leaves `pastQuestions` unchanged and issues no request. -/
theorem submit_name_declaration (s : State) (value : String) (w : Window) (P W R : String)
    (htext : jsTrim value = P ++ W ++ R)
    (hP : P.data.map Char.toUpper ∈ namePrefixes.map (fun p => p.map Char.toUpper))
    (hW : W ≠ "" ∧ ∀ c ∈ W.data, isJsSpace c = true)
    (hR : ∀ c ∈ (jsTrim R).data, isLineTerminator c = false) :
    jsTrim R ≠ "" ∧ jsTrim (jsTrim R) = jsTrim R ∧
    (step s (.submit value w)).context.userName = some (jsTrim R) ∧
    (step s (.submit value w)).messages = s.messages ++
      [⟨.assistant,
        .str ("Nice to meet you, " ++ jsTrim R ++ "! I'll remember your name for this session.")⟩] ∧
    (step s (.submit value w)).context.pastQuestions = s.context.pastQuestions ∧
    (step s (.submit value w)).requests = s.requests ∧
    (step s (.submit value w)).pending = s.pending ∧
    (step s (.submit value w)).sendBtn = s.sendBtn := by
  obtain ⟨hne, hidem, hn⟩ := nameRegex_of_parts value P W R htext hP hW hR
  have ht : jsTrim value ≠ "" := by
    intro h0
    rw [h0] at hn
    have hnone : nameRegex "" = none := by decide
    rw [hnone] at hn
    exact absurd hn (by simp)
  have hs : step s (.submit value w) = nameBranch s (jsTrim R) :=
    submitHandler_name s value (jsTrim R) w ht hn
  rw [hs]
  unfold nameBranch
  rw [hidem]
  exact ⟨hne, rfl, rfl, rfl, rfl, rfl, rfl, rfl⟩

theorem submit_name_declaration_witness :
    jsTrim "  Ava" ≠ "" ∧ jsTrim (jsTrim "  Ava") = jsTrim "  Ava" ∧
    (step (init (some false)) (.submit " My name is   Ava " pageWindow)).context.userName =
      some (jsTrim "  Ava") ∧
    (step (init (some false)) (.submit " My name is   Ava " pageWindow)).messages =
      (init (some false)).messages ++
        [⟨.assistant,
          .str ("Nice to meet you, " ++ jsTrim "  Ava" ++ "! I'll remember your name for this session.")⟩] ∧
    (step (init (some false)) (.submit " My name is   Ava " pageWindow)).context.pastQuestions = [] ∧
    (step (init (some false)) (.submit " My name is   Ava " pageWindow)).requests = [] ∧
    (step (init (some false)) (.submit " My name is   Ava " pageWindow)).pending = 0 ∧
    (step (init (some false)) (.submit " My name is   Ava " pageWindow)).sendBtn = some false :=
  submit_name_declaration (init (some false)) " My name is   Ava " pageWindow "My name is" " " "  Ava"
    (by decide) (by decide) ⟨by decide, by decide⟩ (by decide)

/-! ## What a match of the name pattern looks like -/

theorem mem_litCI (p s r : List Char) (h : r ∈ litCI p s) :
    ∃ P, s = P ++ r ∧ P.map Char.toUpper = p.map Char.toUpper := by
  induction p generalizing s with
  | nil =>
    have : r = s := by simpa [litCI] using h
    exact ⟨[], by simp [this], rfl⟩
  | cons c cs ih =>
    cases s with
    | nil => simp [litCI] at h
    | cons d ds =>
      by_cases hcd : d.toUpper = c.toUpper
      · have h2 : r ∈ litCI cs ds := by simpa [litCI, charCI, hcd] using h
        obtain ⟨P, hP, hup⟩ := ih ds h2
        exact ⟨d :: P, by simp [hP], by simp [hcd, hup]⟩
      · simp [litCI, charCI, hcd] at h

theorem mem_plusGreedy (cls : Char → Bool) (s m r : List Char) (h : (m, r) ∈ plusGreedy cls s) :
    s = m ++ r ∧ m ≠ [] ∧ ∀ c ∈ m, cls c = true := by
  induction s generalizing m with
  | nil => simp [plusGreedy] at h
  | cons c cs ih =>
    by_cases hc : cls c = true
    · rw [plusGreedy_cons cls c cs hc, List.mem_append] at h
      rcases h with h | h
      · obtain ⟨⟨m1, r1⟩, hmem, heq⟩ := List.mem_map.mp h
        have e1 : c :: m1 = m := congrArg Prod.fst heq
        have e2 : r1 = r := congrArg Prod.snd heq
        subst e1
        subst e2
        obtain ⟨hs, _, hall⟩ := ih m1 hmem
        refine ⟨by simp [hs], by simp, ?_⟩
        intro x hx
        rcases List.mem_cons.mp hx with rfl | hx
        · exact hc
        · exact hall x hx
      · have heq : (m, r) = ([c], cs) := by simpa using h
        have e1 : m = [c] := congrArg Prod.fst heq
        have e2 : r = cs := congrArg Prod.snd heq
        subst e1
        subst e2
        exact ⟨rfl, by simp, by simpa using hc⟩
    · simp [plusGreedy, hc] at h

/-- Every match of the pattern is word, whitespace, capture: the capture is
not empty, has no line terminator and ends the text. -/
theorem nameRegexChars_sound (t g : List Char) (h : nameRegexChars t = some g) :
    ∃ P W, t = P ++ (W ++ g) ∧
      P.map Char.toUpper ∈ namePrefixes.map (fun p => p.map Char.toUpper) ∧
      W ≠ [] ∧ (∀ c ∈ W, isJsSpace c = true) ∧
      g ≠ [] ∧ ∀ c ∈ g, isLineTerminator c = false := by
  unfold nameRegexChars at h
  have hmem := List.mem_of_mem_head? h
  obtain ⟨r1, hr1, hmem⟩ := List.mem_flatMap.mp hmem
  obtain ⟨⟨W, r2⟩, hws, hmem⟩ := List.mem_flatMap.mp hmem
  obtain ⟨⟨cap, r3⟩, hcap, hsome⟩ := List.mem_filterMap.mp hmem
  obtain ⟨p, hp, hr1⟩ := List.mem_flatMap.mp hr1
  obtain ⟨P, hP, hup⟩ := mem_litCI p t r1 hr1
  obtain ⟨hW, hWne, hWall⟩ := mem_plusGreedy isJsSpace r1 W r2 hws
  obtain ⟨hC, hCne, hCall⟩ := mem_plusGreedy isDot r2 cap r3 hcap
  simp only at hsome
  split at hsome
  · rename_i h3
    have hg : cap = g := Option.some.inj hsome
    subst hg
    have h4 : r3 = [] := h3
    subst h4
    refine ⟨P, W, ?_, ?_, hWne, hWall, hCne, ?_⟩
    · rw [hP, hW, hC, List.append_nil]
    · rw [hup]
      exact List.mem_map.mpr ⟨p, hp, rfl⟩
    · intro c hc
      have := hCall c hc
      simpa [isDot] using this
  · exact absurd hsome (by simp)

/-- The name the handler stores is never the empty text. -/
theorem nameRegex_name_ne_empty (value g : String) (h : nameRegex (jsTrim value) = some g) :
    jsTrim g ≠ "" := by
  unfold nameRegex at h
  obtain ⟨gc, hgc, hg⟩ := Option.map_eq_some'.mp h
  obtain ⟨P, W, ht, hP, hW, hWs, hgne, hgl⟩ := nameRegexChars_sound _ gc hgc
  have ht2 : trimChars value.data = P ++ (W ++ gc) := ht
  have hR : ∀ c ∈ trimChars gc, isLineTerminator c = false := by
    intro c hc
    apply hgl c
    unfold trimChars at hc
    exact (List.dropWhile_suffix _).subset ((List.rdropWhile_prefix _ _).subset hc)
  have := (nameRegexChars_of_trimmed value.data P W gc ht2 hP hW hWs hR).1
  rw [← hg]
  exact (string_ne_empty_iff _).mpr this

/-! ## Invariants of the session -/

theorem storeInv_init (btn : Option Bool) : StoreInv (init btn) :=
  ⟨⟨[], rfl, by simp⟩, by simp [init], by simp [init]⟩

theorem startExchange_messages (s : State) (w : Window) :
    (startExchange s w).messages = s.messages := by
  unfold startExchange
  simp only
  split_ifs <;> rfl

theorem startExchange_context (s : State) (w : Window) :
    (startExchange s w).context = s.context := by
  unfold startExchange
  simp only
  split_ifs <;> rfl

theorem beginPending_messages (s : State) (text : String) :
    (beginPending s text).messages = s.messages ++ [⟨.user, .str text⟩] := rfl

theorem beginPending_userName (s : State) (text : String) :
    (beginPending s text).context.userName = s.context.userName := rfl

/-- The push and the conditional shift keep the most recent 20 questions. -/
theorem beginPending_pastQuestions (s : State) (text : String)
    (h : s.context.pastQuestions.length ≤ 20) :
    (beginPending s text).context.pastQuestions =
      sliceLast 20 (s.context.pastQuestions ++ [text]) := by
  show (if (s.context.pastQuestions ++ [text]).length > 20
      then (s.context.pastQuestions ++ [text]).tail
      else s.context.pastQuestions ++ [text]) = _
  unfold sliceLast
  by_cases hl : (s.context.pastQuestions ++ [text]).length > 20
  · have h1 : (s.context.pastQuestions ++ [text]).length - 20 = 1 := by
      simp only [List.length_append, List.length_singleton] at hl ⊢
      omega
    rw [if_pos hl, h1, List.drop_one]
  · have h0 : (s.context.pastQuestions ++ [text]).length - 20 = 0 := by omega
    rw [if_neg hl, h0, List.drop_zero]

theorem onSettle_messages (s : State) (o : Outcome) :
    (onSettle s o).messages = s.messages ∨
      ∃ v, (onSettle s o).messages = s.messages ++ [⟨.assistant, v⟩] := by
  rcases onSettle_cases s o with h | ⟨v, h⟩
  · exact Or.inl (by rw [h]; rfl)
  · exact Or.inr ⟨v, by rw [h]; rfl⟩

theorem onSettle_context (s : State) (o : Outcome) : (onSettle s o).context = s.context := by
  rcases onSettle_cases s o with h | ⟨v, h⟩ <;> rw [h] <;> rfl

theorem step_settle_context (s : State) (o : Outcome) :
    (step s (.settle o)).context = s.context := by
  unfold step
  simp only
  split_ifs
  · rfl
  · rw [onSettle_context]

theorem storeInv_append (s t : State) (m : Message) (hs : StoreInv s)
    (hm : t.messages = s.messages ++ [m]) (hr : m.role ≠ .system)
    (hq : t.context.pastQuestions.length ≤ 20) (hu : t.context.userName ≠ some "") :
    StoreInv t := by
  obtain ⟨⟨rest, hrest, hall⟩, _, _⟩ := hs
  refine ⟨⟨rest ++ [m], by rw [hm, hrest]; rfl, ?_⟩, hq, hu⟩
  intro x hx
  rcases List.mem_append.mp hx with hx | hx
  · exact hall x hx
  · rw [List.mem_singleton.mp hx]
    exact hr

/-- Every event keeps the store invariant. -/
theorem storeInv_step (s : State) (e : Event) (hs : StoreInv s) : StoreInv (step s e) := by
  cases e with
  | submit value w =>
    show StoreInv (submitHandler s value w)
    by_cases ht : jsTrim value = ""
    · unfold submitHandler
      simp only [ht, if_true]
      exact hs
    · cases hn : nameRegex (jsTrim value) with
      | some g =>
        rw [submitHandler_name s value g w ht hn]
        refine storeInv_append s _ _ hs rfl (by simp) hs.2.1 ?_
        show some (jsTrim g) ≠ some ""
        intro h
        exact nameRegex_name_ne_empty value g hn (Option.some.inj h)
      | none =>
        rw [submitHandler_question s value w ht hn]
        refine storeInv_append s _ ⟨.user, .str (jsTrim value)⟩ hs ?_ (by simp) ?_ ?_
        · rw [startExchange_messages, beginPending_messages]
        · rw [startExchange_context, beginPending_pastQuestions s _ hs.2.1, sliceLast_length]
          exact Nat.min_le_left _ _
        · rw [startExchange_context, beginPending_userName]
          exact hs.2.2
  | settle o =>
    unfold step
    simp only
    split_ifs
    · exact hs
    · have hc := onSettle_context { s with pending := s.pending - 1 } o
      rcases onSettle_messages { s with pending := s.pending - 1 } o with h | ⟨v, h⟩
      · obtain ⟨⟨rest, hrest, hall⟩, hq, hu⟩ := hs
        exact ⟨⟨rest, by rw [h]; exact hrest, hall⟩, by rw [hc]; exact hq, by rw [hc]; exact hu⟩
      · exact storeInv_append s _ ⟨.assistant, v⟩ hs h (by simp) (by rw [hc]; exact hs.2.1)
          (by rw [hc]; exact hs.2.2)
  | clear ok =>
    cases ok with
    | false => exact hs
    | true => exact ⟨⟨[], rfl, by simp⟩, by simp [step, clearHandler], by simp [step, clearHandler]⟩

theorem storeInv_run (s : State) (es : List Event) (hs : StoreInv s) : StoreInv (run s es) := by
  induction es generalizing s with
  | nil => exact hs
  | cons e es ih => exact ih (step s e) (storeInv_step s e hs)

theorem sliceLast_sliceLast_append {α : Type} (n : Nat) (a b : List α) :
    sliceLast n (sliceLast n a ++ b) = sliceLast n (a ++ b) := by
  unfold sliceLast
  have h1 : (a ++ b).length - n = (a.take (a.length - n)).length +
      ((List.drop (a.length - n) a ++ b).length - n) := by
    simp only [List.length_append, List.length_drop, List.length_take]
    omega
  have e : a ++ b = a.take (a.length - n) ++ (List.drop (a.length - n) a ++ b) := by
    rw [← List.append_assoc, List.take_append_drop]
  rw [h1]
  conv_rhs => arg 2; rw [e]
  rw [List.drop_append]

/-- The questions kept after a run of question submissions and settlings. -/
theorem run_pastQuestions (s : State) (es : List Event)
    (hes : es.all isQuestionOrSettle = true) (hs : s.context.pastQuestions.length ≤ 20) :
    (run s es).context.pastQuestions =
      sliceLast 20 (s.context.pastQuestions ++ submittedTexts es) := by
  induction es generalizing s with
  | nil =>
    simp only [run, List.foldl_nil, submittedTexts, List.filterMap_nil, List.append_nil]
    unfold sliceLast
    rw [Nat.sub_eq_zero_of_le hs, List.drop_zero]
  | cons e es ih =>
    rw [List.all_cons, Bool.and_eq_true] at hes
    show (run (step s e) es).context.pastQuestions = _
    cases e with
    | submit value w =>
      have hq := hes.1
      simp only [isQuestionOrSettle, Bool.and_eq_true, bne_iff_ne, ne_eq,
        Option.isNone_iff_eq_none] at hq
      have hstep : (step s (.submit value w)).context.pastQuestions =
          sliceLast 20 (s.context.pastQuestions ++ [jsTrim value]) := by
        show (submitHandler s value w).context.pastQuestions = _
        rw [submitHandler_question s value w hq.1 hq.2, startExchange_context,
          beginPending_pastQuestions s _ hs]
      have hlen : (step s (.submit value w)).context.pastQuestions.length ≤ 20 := by
        rw [hstep, sliceLast_length]
        exact Nat.min_le_left _ _
      rw [ih _ hes.2 hlen, hstep, sliceLast_sliceLast_append]
      simp [submittedTexts]
    | settle o =>
      have hc := step_settle_context s o
      rw [ih _ hes.2 (by rw [hc]; exact hs), hc]
      simp [submittedTexts]
    | clear ok =>
      exact absurd hes.1 (by simp [isQuestionOrSettle])

/-! ## The exchange, end to end -/

theorem startExchange_of_endpoint (s : State) (w : Window) (h : hasEndpoint w = true) :
    ∃ ep, startExchange s w =
      { s with
        requests := s.requests ++ [{ endpoint := ep, messages := buildMessagesForApi s }]
        pending := s.pending + 1 } := by
  unfold startExchange
  simp only
  by_cases h1 : (jsOr w.CF_WORKER_URL w.CLOUDWORKER_URL).truthy = true
  · exact ⟨_, by rw [if_pos h1]⟩
  · have h2 : w.OPENAI_API_KEY.truthy = true := by
      simpa [hasEndpoint, h1] using h
    exact ⟨_, by rw [if_neg h1, if_pos h2]⟩

theorem startExchange_of_no_endpoint (s : State) (w : Window) (h : hasEndpoint w = false) :
    startExchange s w = setDisabled s false := by
  unfold startExchange
  simp only [hasEndpoint, Bool.or_eq_false_iff] at h ⊢
  rw [if_neg (by simp [h.1]), if_neg (by simp [h.2])]

/-- Every stored message is part of the payload. -/
theorem mem_buildMessagesForApi (s : State) (m : Message) (h : m ∈ s.messages) :
    some m ∈ buildMessagesForApi s := by
  unfold buildMessagesForApi
  cases hm : s.messages with
  | nil => rw [hm] at h; exact absurd h (by simp)
  | cons x xs =>
    rw [hm] at h
    rcases List.mem_cons.mp h with rfl | hx
    · cases memoryMessage s <;> simp
    · cases memoryMessage s <;> simp [hx]

theorem onSettle_sendBtn (s : State) (o : Outcome) :
    (onSettle s o).sendBtn = s.sendBtn.map (fun _ => false) := by
  rcases onSettle_cases s o with h | ⟨v, h⟩ <;> rw [h] <;> rfl

theorem onSettle_pending (s : State) (o : Outcome) : (onSettle s o).pending = s.pending := by
  rcases onSettle_cases s o with h | ⟨v, h⟩ <;> rw [h] <;> rfl

theorem step_settle_of_pending (t : State) (o : Outcome) (hp : 0 < t.pending) :
    step t (.settle o) = onSettle { t with pending := t.pending - 1 } o := by
  have hne : ¬ t.pending = 0 := by omega
  show (if t.pending = 0 then t else _) = _
  rw [if_neg hne]

theorem systemPrompt_head : systemPrompt.data.head? = some 'Y' := by decide

/-- C4: in every state reachable from the initial one `pastQuestions` has at
most 20 entries; and after any run of question submissions (each not
empty and not a name declaration) and settlings that starts with an empty
`pastQuestions`, `pastQuestions` is the last min(n, 20) of the n trimmed
texts, in submission order. -/
theorem pastQuestions_bounded_fifo :
    (∀ (btn : Option Bool) (es : List Event),
      (run (init btn) es).context.pastQuestions.length ≤ 20) ∧
    (∀ (s : State) (es : List Event), s.context.pastQuestions = [] →
      es.all isQuestionOrSettle = true →
      ∃ older, submittedTexts es = older ++ (run s es).context.pastQuestions ∧
        (run s es).context.pastQuestions.length = min (submittedTexts es).length 20) := by
  constructor
  · intro btn es
    exact (storeInv_run _ es (storeInv_init btn)).2.1
  · intro s es h0 hes
    have h := run_pastQuestions s es hes (by simp [h0])
    rw [h0, List.nil_append] at h
    refine ⟨(submittedTexts es).take ((submittedTexts es).length - 20), ?_, ?_⟩
    · rw [h]
      exact sliceLast_split 20 _
    · rw [h, sliceLast_length, Nat.min_comm]

theorem pastQuestions_bounded_fifo_witness :
    (run (init (some false)) questionRun).context.pastQuestions =
      ["Q6", "Q7", "Q8", "Q9", "Q10", "Q11", "Q12", "Q13", "Q14", "Q15", "Q16", "Q17",
       "Q18", "Q19", "Q20", "Q21", "Q22", "Q23", "Q24", "Q25"] := by
  obtain ⟨older, hsplit, hlen⟩ :=
    pastQuestions_bounded_fifo.2 (init (some false)) questionRun rfl (by decide)
  have htexts : submittedTexts questionRun = questionTexts := by decide
  rw [htexts] at hsplit hlen
  generalize (run (init (some false)) questionRun).context.pastQuestions = pq at hsplit hlen ⊢
  have h5 : older.length = 5 := by
    have := congrArg List.length hsplit
    rw [List.length_append, hlen] at this
    simp [questionTexts] at this
    omega
  have h3 : List.drop 5 (older ++ pq) = pq := by
    rw [List.drop_append_of_le_length (Nat.le_of_eq h5.symm),
      List.drop_of_length_le (Nat.le_of_eq h5)]
    rfl
  rw [← h3, ← hsplit]
  rfl

/-- C5 as stated fails, in two ways.  A 2xx response whose body is not JSON
rejects at `await resp.json()`; a 2xx response whose JSON body yields an
extracted value without a string conversion throws at the assignment to
`textContent`, before the push.  Both end in the `catch` block: after the
exchange the history holds the user message but no assistant message, and
its length has grown by 1. -/
theorem success_status_without_answer :
    jsTrim "hello" ≠ "" ∧ nameRegex (jsTrim "hello") = none ∧
    (step (init (some false)) (.submit "hello" pageWindow)).requests.length = 1 ∧
    brokenBody.ok = true ∧
    (step (step (init (some false)) (.submit "hello" pageWindow))
      (.settle (.responded brokenBody))).messages =
        (init (some false)).messages ++ [⟨.user, .str "hello"⟩] ∧
    (step (step (init (some false)) (.submit "hello" pageWindow))
      (.settle (.responded brokenBody))).messages.length =
        (init (some false)).messages.length + 1 ∧
    unprintableBody.ok = true ∧
    unprintableBody.json =
      some (.obj [("text", .obj [("toString", .num 1), ("valueOf", .num 1)])]) ∧
    extractAssistantMsg (.obj [("text", .obj [("toString", .num 1), ("valueOf", .num 1)])]) =
      .obj [("toString", .num 1), ("valueOf", .num 1)] ∧
    (step (step (init (some false)) (.submit "hello" pageWindow))
      (.settle (.responded unprintableBody))).messages =
        (init (some false)).messages ++ [⟨.user, .str "hello"⟩] ∧
    (step (step (init (some false)) (.submit "hello" pageWindow))
      (.settle (.responded unprintableBody))).messages.length =
        (init (some false)).messages.length + 1 := by
  have ht : jsTrim "hello" ≠ "" := by decide
  have hn : nameRegex (jsTrim "hello") = none := by decide
  have hv : jsTrim "hello" = "hello" := by decide
  have hs : step (init (some false)) (.submit "hello" pageWindow) =
      startExchange (beginPending (init (some false)) "hello") pageWindow := by
    have h := submitHandler_question (init (some false)) "hello" pageWindow ht hn
    rw [hv] at h
    exact h
  have hx : extractAssistantMsg
      (.obj [("text", .obj [("toString", .num 1), ("valueOf", .num 1)])]) =
      .obj [("toString", .num 1), ("valueOf", .num 1)] := by
    simp [extractAssistantMsg, JsVal.optProp, JsVal.optIndex0, jsOr, JsVal.truthy, List.lookup]
  have hb : ∀ t : State, onSettle t (.responded brokenBody) = setDisabled t false :=
    fun t => onSettle_failure t _ (Or.inr ⟨brokenBody, rfl, Or.inr (Or.inl rfl)⟩)
  have hu : ∀ t : State, onSettle t (.responded unprintableBody) = setDisabled t false :=
    fun t => onSettle_failure t _ (Or.inr ⟨unprintableBody, rfl, Or.inr (Or.inr
      ⟨_, rfl, by rw [hx]; decide⟩)⟩)
  have hp : 0 < (startExchange (beginPending (init (some false)) "hello") pageWindow).pending := by
    decide
  rw [hs, step_settle_of_pending _ _ hp, step_settle_of_pending _ _ hp, hb, hu]
  exact ⟨ht, hn, rfl, by decide, rfl, rfl, by decide, rfl, hx, rfl, rfl⟩

/-- C5, amended: for a question (not empty, not a name declaration)
submitted with an endpoint configured and answered by a 2xx response whose
body is read as the JSON value `data` and whose extracted response has a
string conversion (every text has one), nothing else happening in
between: the user message (the trimmed text) is in the history when the
payload is built and is part of the payload; after the exchange the
history is the one before the submission, then that user message, then one
assistant message holding the extracted response; the length has grown
by 2. -/
theorem exchange_success (s : State) (value : String) (w : Window) (r : Response) (data : JsVal)
    (ht : jsTrim value ≠ "") (hn : nameRegex (jsTrim value) = none)
    (hw : hasEndpoint w = true) (hok : r.ok = true) (hdata : r.json = some data)
    (hconv : (extractAssistantMsg data).convertsToString = true) :
    (step s (.submit value w)).messages = s.messages ++ [⟨.user, .str (jsTrim value)⟩] ∧
    (∃ req, (step s (.submit value w)).requests = s.requests ++ [req] ∧
      req.messages = buildMessagesForApi (step s (.submit value w)) ∧
      some ⟨.user, .str (jsTrim value)⟩ ∈ req.messages) ∧
    (step (step s (.submit value w)) (.settle (.responded r))).messages =
      s.messages ++ [⟨.user, .str (jsTrim value)⟩, ⟨.assistant, extractAssistantMsg data⟩] ∧
    (step (step s (.submit value w)) (.settle (.responded r))).messages.length =
      s.messages.length + 2 := by
  obtain ⟨ep, hstart⟩ := startExchange_of_endpoint (beginPending s (jsTrim value)) w hw
  have hs1 : step s (.submit value w) = _ :=
    (submitHandler_question s value w ht hn).trans hstart
  have hmsg : (step s (.submit value w)).messages =
      s.messages ++ [⟨.user, .str (jsTrim value)⟩] := by
    rw [hs1]; rfl
  have hp : 0 < (step s (.submit value w)).pending := by
    rw [hs1]
    exact Nat.succ_pos _
  have hs2 : (step (step s (.submit value w)) (.settle (.responded r))).messages =
      s.messages ++ [⟨.user, .str (jsTrim value)⟩, ⟨.assistant, extractAssistantMsg data⟩] := by
    rw [step_settle_of_pending _ _ hp, onSettle_success _ r data hok hdata hconv]
    show (step s (.submit value w)).messages ++ [_] = _
    rw [hmsg, List.append_assoc]
    rfl
  refine ⟨hmsg, ⟨_, by rw [hs1]; rfl, by rw [hs1]; rfl, ?_⟩, hs2, by rw [hs2]; simp⟩
  apply mem_buildMessagesForApi
  show _ ∈ s.messages ++ [_]
  simp

theorem exchange_success_witness :
    (step (step (init (some false)) (.submit " hello " pageWindow))
        (.settle (.responded okResponse))).messages =
      (init (some false)).messages ++
        [⟨.user, .str (jsTrim " hello ")⟩,
         ⟨.assistant, extractAssistantMsg (.obj [("response", .str "Hi")])⟩] :=
  (exchange_success (init (some false)) " hello " pageWindow okResponse
    (.obj [("response", .str "Hi")]) (by decide) (by decide) (by decide) (by decide) rfl
    (by decide)).2.2.1

/-- C6 as stated fails: the clear button is never disabled, and a confirmed
clear between the call and the status 500 answer leaves, after the failure
handling, the system prompt alone, not the two messages the history held
at the call. -/
theorem clear_between_call_and_failure :
    jsTrim "hello" ≠ "" ∧ nameRegex (jsTrim "hello") = none ∧
    serverError.ok = false ∧
    (step (init (some false)) (.submit "hello" pageWindow)).requests.length = 1 ∧
    (step (init (some false)) (.submit "hello" pageWindow)).messages =
      [⟨.system, .str systemPrompt⟩, ⟨.user, .str "hello"⟩] ∧
    (run (init (some false)) clearedThenFailedRun).messages = [⟨.system, .str systemPrompt⟩] ∧
    (run (init (some false)) clearedThenFailedRun).messages.length ≠
      (step (init (some false)) (.submit "hello" pageWindow)).messages.length := by
  have ht : jsTrim "hello" ≠ "" := by decide
  have hn : nameRegex (jsTrim "hello") = none := by decide
  have hv : jsTrim "hello" = "hello" := by decide
  have hs : step (init (some false)) (.submit "hello" pageWindow) =
      startExchange (beginPending (init (some false)) "hello") pageWindow := by
    have h := submitHandler_question (init (some false)) "hello" pageWindow ht hn
    rw [hv] at h
    exact h
  have hrun : run (init (some false)) clearedThenFailedRun =
      step (step (step (init (some false)) (.submit "hello" pageWindow)) (.clear true))
        (.settle (.responded serverError)) := rfl
  have hp : 0 < (step (startExchange (beginPending (init (some false)) "hello") pageWindow)
      (.clear true)).pending := by decide
  rw [hrun, hs, step_settle_of_pending _ _ hp,
    onSettle_failure _ _ (Or.inr ⟨serverError, rfl, Or.inl (by decide)⟩)]
  exact ⟨ht, hn, by decide, rfl, rfl, rfl, by decide⟩

/-- C6, amended: for a question submitted with an endpoint configured whose
exchange ends in failure (the `fetch` rejected, a response whose status is
not 2xx, a body that cannot be read, or an extracted value that cannot be
shown), with no other event between the call and the failure handling, the
history after the failure handling is exactly the history as it was at
the call, which ends with the user message: no assistant message and
nothing else is appended, the length is unchanged; the memory is untouched
too.  Whatever the state in which it runs, the failure handling itself
appends nothing. -/
theorem failure_keeps_history (s : State) (value : String) (w : Window) (o : Outcome)
    (ht : jsTrim value ≠ "") (hn : nameRegex (jsTrim value) = none)
    (hw : hasEndpoint w = true)
    (hf : (∃ msg, o = .rejected msg) ∨
      ∃ r, o = .responded r ∧ (r.ok = false ∨ r.json = none ∨
        ∃ data, r.json = some data ∧ (extractAssistantMsg data).convertsToString = false)) :
    (step s (.submit value w)).messages = s.messages ++ [⟨.user, .str (jsTrim value)⟩] ∧
    (step (step s (.submit value w)) (.settle o)).messages =
      (step s (.submit value w)).messages ∧
    (step (step s (.submit value w)) (.settle o)).messages.length =
      (step s (.submit value w)).messages.length ∧
    (step (step s (.submit value w)) (.settle o)).context =
      (step s (.submit value w)).context ∧
    (∀ t : State, (onSettle t o).messages = t.messages ∧ (onSettle t o).context = t.context) := by
  obtain ⟨ep, hstart⟩ := startExchange_of_endpoint (beginPending s (jsTrim value)) w hw
  have hs1 : step s (.submit value w) = _ :=
    (submitHandler_question s value w ht hn).trans hstart
  have hp : 0 < (step s (.submit value w)).pending := by
    rw [hs1]
    exact Nat.succ_pos _
  have hset : step (step s (.submit value w)) (.settle o) =
      setDisabled { step s (.submit value w) with
        pending := (step s (.submit value w)).pending - 1 } false := by
    rw [step_settle_of_pending _ _ hp, onSettle_failure _ o hf]
  refine ⟨by rw [hs1]; rfl, by rw [hset]; rfl, by rw [hset]; rfl, by rw [hset]; rfl, ?_⟩
  intro t
  rw [onSettle_failure t o hf]
  exact ⟨rfl, rfl⟩

theorem failure_keeps_history_witness :
    (step (init (some false)) (.submit "hello" pageWindow)).messages =
      (init (some false)).messages ++ [⟨.user, .str (jsTrim "hello")⟩] ∧
    (step (step (init (some false)) (.submit "hello" pageWindow))
      (.settle (.responded serverError))).messages =
      (step (init (some false)) (.submit "hello" pageWindow)).messages ∧
    (step (step (init (some false)) (.submit "hello" pageWindow))
      (.settle (.responded serverError))).messages.length =
      (step (init (some false)) (.submit "hello" pageWindow)).messages.length :=
  ⟨(failure_keeps_history (init (some false)) "hello" pageWindow (.responded serverError)
      (by decide) (by decide) (by decide) (Or.inr ⟨serverError, rfl, Or.inl (by decide)⟩)).1,
   (failure_keeps_history (init (some false)) "hello" pageWindow (.responded serverError)
      (by decide) (by decide) (by decide) (Or.inr ⟨serverError, rfl, Or.inl (by decide)⟩)).2.1,
   (failure_keeps_history (init (some false)) "hello" pageWindow (.responded serverError)
      (by decide) (by decide) (by decide) (Or.inr ⟨serverError, rfl, Or.inl (by decide)⟩)).2.2.1⟩

/-- C9: in every state reachable from the initial one by submissions,
settlings (also after a clear) and clears, the history is not empty, its
element at index 0 has role system, no element at another index has role
system, and no memory message that the request builder can synthesize is
stored in it. -/
theorem history_system_first (btn : Option Bool) (es : List Event) :
    (run (init btn) es).messages ≠ [] ∧
    (run (init btn) es).messages[0]?.map Message.role = some .system ∧
    (∀ (i : Nat) (m : Message), 0 < i → (run (init btn) es).messages[i]? = some m →
      m.role ≠ .system) ∧
    (∀ (t : State) (m : Message), memoryMessage t = some m →
      m ∉ (run (init btn) es).messages) := by
  obtain ⟨⟨rest, hrest, hall⟩, _, _⟩ := storeInv_run _ es (storeInv_init btn)
  rw [hrest]
  refine ⟨by simp, by simp, ?_, ?_⟩
  · intro i m hi hm
    cases i with
    | zero => exact absurd hi (by decide)
    | succ j =>
      rw [List.getElem?_cons_succ] at hm
      exact hall m (List.getElem?_mem hm)
  · intro t m hm hmem
    obtain ⟨c, hc⟩ := memoryMessage_form t m hm
    rcases List.mem_cons.mp hmem with h | h
    · rw [hc] at h
      have h1 : "Conversation memory: " ++ c = systemPrompt := by
        injection h with _ h2
        injection h2
      have h2 := congrArg (fun x : String => x.data.head?) h1
      simp only [String.data_append, systemPrompt_head] at h2
      have h3 : ("Conversation memory: ".data ++ c.data).head? = some 'C' := rfl
      rw [h3] at h2
      exact absurd h2 (by decide)
    · exact hall m h (by rw [hc])

theorem history_system_first_witness :
    (run (init (some false)) lateAnswerRun).messages ≠ [] ∧
    (run (init (some false)) lateAnswerRun).messages[0]?.map Message.role = some .system ∧
    (⟨.assistant, .str "Hi"⟩ : Message).role ≠ .system :=
  ⟨(history_system_first (some false) lateAnswerRun).1,
   (history_system_first (some false) lateAnswerRun).2.1,
   (history_system_first (some false) lateAnswerRun).2.2.1 1 ⟨.assistant, .str "Hi"⟩
     (by decide) rfl⟩

/-- C10: for a question (not empty, not a name declaration) the send button,
if the page has one, is disabled when the exchange becomes pending; it
stays disabled while a request is awaited; it is enabled again when no
endpoint is configured, and by every way a request can settle: a 2xx
response, a response outside 2xx, a rejected `fetch`, a body that cannot
be read. -/
theorem sendBtn_reenabled (s : State) (value : String) (w : Window) (o : Outcome)
    (ht : jsTrim value ≠ "") (hn : nameRegex (jsTrim value) = none) :
    (beginPending s (jsTrim value)).sendBtn = s.sendBtn.map (fun _ => true) ∧
    step s (.submit value w) = startExchange (beginPending s (jsTrim value)) w ∧
    (hasEndpoint w = true →
      (step s (.submit value w)).sendBtn = s.sendBtn.map (fun _ => true) ∧
      (step s (.submit value w)).pending = s.pending + 1) ∧
    (hasEndpoint w = false →
      (step s (.submit value w)).sendBtn = s.sendBtn.map (fun _ => false) ∧
      (step s (.submit value w)).pending = s.pending ∧
      (step s (.submit value w)).requests = s.requests) ∧
    (∀ t : State, (onSettle t o).sendBtn = t.sendBtn.map (fun _ => false)) ∧
    (∀ t : State, 0 < t.pending →
      (step t (.settle o)).sendBtn = t.sendBtn.map (fun _ => false) ∧
      (step t (.settle o)).pending = t.pending - 1) := by
  have hq : step s (.submit value w) = startExchange (beginPending s (jsTrim value)) w :=
    submitHandler_question s value w ht hn
  have hmap : ∀ (b : Option Bool) (d e : Bool),
      (b.map fun _ => d).map (fun _ => e) = b.map fun _ => e := by
    intro b d e
    cases b <;> rfl
  refine ⟨rfl, hq, ?_, ?_, fun t => onSettle_sendBtn t o, ?_⟩
  · intro hw
    obtain ⟨ep, hstart⟩ := startExchange_of_endpoint (beginPending s (jsTrim value)) w hw
    rw [hq, hstart]
    exact ⟨rfl, rfl⟩
  · intro hw
    rw [hq, startExchange_of_no_endpoint _ w hw]
    exact ⟨hmap _ _ _, rfl, rfl⟩
  · intro t hp
    rw [step_settle_of_pending t o hp, onSettle_sendBtn, onSettle_pending]
    exact ⟨rfl, rfl⟩

theorem sendBtn_reenabled_witness :
    (step (init (some false)) (.submit "hello" pageWindow)).sendBtn = some true ∧
    (step (step (init (some false)) (.submit "hello" pageWindow))
      (.settle (.responded brokenBody))).sendBtn = some false :=
  ⟨((sendBtn_reenabled (init (some false)) "hello" pageWindow (.responded brokenBody)
      (by decide) (by decide)).2.2.1 (by decide)).1,
   ((sendBtn_reenabled (init (some false)) "hello" pageWindow (.responded brokenBody)
      (by decide) (by decide)).2.2.2.2.2
      (step (init (some false)) (.submit "hello" pageWindow)) (by decide)).1⟩

end LorealChatbot
